import Mathlib

/-!
Shallow embedding of `hwsim_perf.py`, a WiFi-throughput test harness built on
`mac80211_hwsim`.  The orchestration (`test`) is modelled as a list of steps,
each step emitting observable events and optionally pushing a release action
onto the `contextlib.ExitStack`; `runScope` models the stack's semantics
(release everything acquired, in reverse order, whether or not an acquisition
step failed).  The leaf components (`Daemon.__exit__`, `CGroup.__exit__`, the
wpa_cli connection-wait loop) are modelled as standalone functions as well.
-/

namespace HwsimPerf

/-- A simulated radio device as discovered under `/sys/class/mac80211_hwsim`:
its physical-layer handle (`phy`) and its network-interface name (`dev`). -/
structure WDev where
  phy : String
  dev : String
deriving DecidableEq

/-- Observable effects of the orchestration on the outside world.  Spawned
processes are identified by the order in which the run spawns them. -/
inductive Ev where
  | cmd (argv : List String)
  | nsAdd (name : String)
  | nsDelete (name : String)
  | spawn (id : Nat) (argv : List String)
  | terminate (id : Nat)
  | waitProc (id : Nat)
  | cgMkdir (path : String)
  | cgWrite (path key value : String)
  | cgEnroll (path : String) (id : Nat)
  | cgRmdir (path : String)
  | tmpCreate (name : String)
  | tmpRemove (name : String)
  | barrierStart (i : Nat)
  | readLine (i : Nat) (line : String)
  | barrierEnd (i : Nat)
deriving DecidableEq

/-- Python-level failures relevant to this program. -/
inductive PyErr where
  | commandFailed
  | processLookupError
  | permissionError
  | indexError
  | osError
deriving DecidableEq

/-- One step of the orchestration body: the events it emits and, when the step
is a `stack.enter_context(...)`, the events its release action will emit. -/
structure Step where
  events : List Ev
  release : Option (List Ev)
deriving DecidableEq

/-- A plain action (no resource pushed onto the stack). -/
def act (evs : List Ev) : Step := ⟨evs, none⟩

/-- An acquisition: emits `evs` and pushes a release action emitting `rel`. -/
def acqRes (evs rel : List Ev) : Step := ⟨evs, some rel⟩

/-- Run the steps of the body in order.  `failAt = some k` means the `k`-th
step (0-based) raises; steps before it run fully, it and later steps do not
run.  Returns the acquisition trace, the stack of pending release actions in
push order, and whether the body completed. -/
def runSteps (steps : List Step) (failAt : Option Nat) :
    List Ev × List (List Ev) × Bool :=
  match steps, failAt with
  | [], _ => ([], [], true)
  | _ :: _, some 0 => ([], [], false)
  | s :: ss, some (Nat.succ k) =>
      let rest := runSteps ss (some k)
      (s.events ++ rest.1, s.release.toList ++ rest.2.1, rest.2.2)
  | s :: ss, none =>
      let rest := runSteps ss none
      (s.events ++ rest.1, s.release.toList ++ rest.2.1, rest.2.2)

/-- `contextlib.ExitStack` semantics: after the body (complete or interrupted
by a failure), every pending release action runs, most recently acquired
first.  Returns the full event trace and whether the body completed. -/
def runScope (steps : List Step) (failAt : Option Nat) : List Ev × Bool :=
  let r := runSteps steps failAt
  (r.1 ++ r.2.1.reverse.flatten, r.2.2)

/-- The steps of the body that actually ran: all of them on a complete run,
only those before the failing one otherwise. -/
def stepsUpTo (steps : List Step) : Option Nat → List Step
  | none => steps
  | some k => steps.take k

theorem runSteps_none (steps : List Step) :
    runSteps steps none =
      (steps.flatMap Step.events, steps.filterMap Step.release, true) := by
  induction steps with
  | nil => rfl
  | cons s ss ih =>
      cases h : s.release <;>
        simp [runSteps, ih, List.filterMap_cons, h]

theorem runSteps_some (steps : List Step) (k : Nat) :
    (runSteps steps (some k)).1 = (steps.take k).flatMap Step.events ∧
    (runSteps steps (some k)).2.1 = (steps.take k).filterMap Step.release := by
  induction steps generalizing k with
  | nil => simp [runSteps]
  | cons s ss ih =>
      cases k with
      | zero => simp [runSteps]
      | succ k =>
          cases h : s.release <;>
            simp [runSteps, (ih k).1, (ih k).2, List.filterMap_cons, h]

/-- The trace of a run: the events of the steps that ran, followed by the
release actions of the acquisitions among them, in reverse order. -/
theorem runScope_trace (steps : List Step) (failAt : Option Nat) :
    (runScope steps failAt).1 =
      (stepsUpTo steps failAt).flatMap Step.events ++
        ((stepsUpTo steps failAt).filterMap Step.release).reverse.flatten := by
  cases failAt with
  | none => simp [runScope, runSteps_none, stepsUpTo]
  | some k =>
      simp [runScope, (runSteps_some steps k).1, (runSteps_some steps k).2,
        stepsUpTo]

/-! ### The parameters of `test` and the state of the outside world -/

/-- The arguments of `test(num_clients, tcp_window_size, time, cpulimit,
bandwidth=None, cpuset=None)`. -/
structure Params where
  numClients : Nat
  tcpWindowSize : String
  time : Nat
  cpulimit : Nat
  bandwidth : Option String
  cpuset : Option String
deriving DecidableEq

/-- Everything the run observes from the outside world: whether the driver
module is loaded, the devices discovered under `/sys/class/mac80211_hwsim`
(in directory-iteration order), the orchestrator's pid, the directory the
script resides in, the parent cgroups' `cpuset.mems`/`cpuset.cpus` contents,
whether the two cgroup directories pre-exist, the contents of their `tasks`
files at teardown time, the names `tempfile` hands out, and the stdout lines
of each client's `wpa_cli` process. -/
structure Env where
  moduleLoaded : Bool
  devices : List WDev
  pid : Nat
  dataDir : String
  parentMems : String
  parentCpus : String
  cpuCgExists : Bool
  cpusetCgExists : Bool
  cpuTasksAtExit : List Nat
  cpusetTasksAtExit : List Nat
  tmpNames : List String
  streams : List (List String)
deriving DecidableEq

/-- `iperf_config = ['-N', '-w', w, '-l', w]` plus `['-b', b]` when a
bandwidth is given. -/
def iperfConfig (p : Params) : List String :=
  ["-N", "-w", p.tcpWindowSize, "-l", p.tcpWindowSize] ++
    (match p.bandwidth with
     | some b => ["-b", b]
     | none => [])

def cpuCgPath : String := "cpu/hwsim_perf"

def cpusetCgPath : String := "cpuset/hwsim_perf"

/-- `ip netns exec <name> <args...>`. -/
def nsExec (name : String) (args : List String) : List String :=
  ["ip", "netns", "exec", name] ++ args

/-- `CGroup.__enter__`: `mkdir` the group directory only if it is absent. -/
def cgEnterEvents (alreadyThere : Bool) (path : String) : List Ev :=
  if alreadyThere then [] else [Ev.cgMkdir path]

/-- `CGroup.__exit__`: if the orchestrator's pid is still in the group's
`tasks` file, write it to the parent group's `tasks` file (which migrates the
task out of this group), then remove the group directory. -/
def cgExitEvents (path parentPath : String) (tasks : List Nat) (pid : Nat) :
    List Ev :=
  (if pid ∈ tasks then [Ev.cgWrite parentPath "tasks" (toString pid)] else [])
    ++ [Ev.cgRmdir path]

/-- The first block of the body: enter the cpu cgroup, write its period and
quota, enroll the orchestrator, enter the cpuset cgroup, copy the parent's
`cpuset.mems`, and set `cpuset.cpus` from the parameter or the parent. -/
def cgroupSteps (p : Params) (env : Env) : List Step :=
  [acqRes (cgEnterEvents env.cpuCgExists cpuCgPath)
      (cgExitEvents cpuCgPath "cpu" env.cpuTasksAtExit env.pid),
   act [Ev.cgWrite cpuCgPath "cpu.cfs_period_us" (toString (100 * 1000))],
   act [Ev.cgWrite cpuCgPath "cpu.cfs_quota_us" (toString (p.cpulimit * 1000))],
   act [Ev.cgWrite cpuCgPath "tasks" (toString env.pid)],
   acqRes (cgEnterEvents env.cpusetCgExists cpusetCgPath)
      (cgExitEvents cpusetCgPath "cpuset" env.cpusetTasksAtExit env.pid),
   act [Ev.cgWrite cpusetCgPath "cpuset.mems" env.parentMems],
   act [Ev.cgWrite cpusetCgPath "cpuset.cpus"
      (match p.cpuset with
       | none => env.parentCpus
       | some cs => cs)]]

/-- The access-point block: create the `access_point` namespace, move the AP
phy into it, rename its interface to `wlan_ap`, assign its address, start
`hostapd` (process 0) and the `iperf` server (process 1, enrolled into the
cpuset cgroup by its pre-exec hook). -/
def apSteps (p : Params) (env : Env) (apDev : WDev) : List Step :=
  [acqRes [Ev.nsAdd "access_point"] [Ev.nsDelete "access_point"],
   act [Ev.cmd ["iw", "phy", apDev.phy, "set", "netns", "name", "access_point"]],
   act [Ev.cmd (nsExec "access_point"
      ["ip", "link", "set", "dev", apDev.dev, "name", "wlan_ap"])],
   act [Ev.cmd (nsExec "access_point"
      ["ip", "addr", "add", "192.168.200.1/24", "broadcast", "192.168.200.255",
       "dev", "wlan_ap"])],
   acqRes [Ev.spawn 0 (nsExec "access_point"
      ["hostapd", env.dataDir ++ "/hostapd.conf"])]
      [Ev.terminate 0, Ev.waitProc 0],
   acqRes [Ev.spawn 1 (nsExec "access_point" (["iperf", "-s"] ++ iperfConfig p)),
      Ev.cgEnroll cpusetCgPath 1]
      [Ev.terminate 1, Ev.waitProc 1]]

/-- The scratch directory `tempfile.TemporaryDirectory()` hands to client `i`. -/
def tmpName (env : Env) (i : Nat) : String :=
  env.tmpNames.getD i ("tmp" ++ toString i)

/-- `client_ctrl`: the wpa control socket path inside client `i`'s scratch
directory. -/
def ctrlPath (env : Env) (i : Nat) : String := tmpName env i ++ "/wpa_ctrl"

/-- Process id of client `i`'s `wpa_supplicant`. -/
def suppId (i : Nat) : Nat := 2 + 2 * i

/-- Process id of client `i`'s `wpa_cli`. -/
def cliId (i : Nat) : Nat := 3 + 2 * i

def clientNsName (i : Nat) : String := "client" ++ toString i

/-- The per-client setup block: scratch directory, `client{i}` namespace,
phy migration, address assignment, `wpa_supplicant`, `wpa_cli`. -/
def clientSteps (env : Env) (i : Nat) (w : WDev) : List Step :=
  [acqRes [Ev.tmpCreate (tmpName env i)] [Ev.tmpRemove (tmpName env i)],
   acqRes [Ev.nsAdd (clientNsName i)] [Ev.nsDelete (clientNsName i)],
   act [Ev.cmd ["iw", "phy", w.phy, "set", "netns", "name", clientNsName i]],
   act [Ev.cmd (nsExec (clientNsName i)
      ["ip", "addr", "add", "192.168.200." ++ toString (i + 2) ++ "/24",
       "broadcast", "192.168.200.255", "dev", w.dev])],
   acqRes [Ev.spawn (suppId i) (nsExec (clientNsName i)
      ["wpa_supplicant", "-i", w.dev, "-c",
       env.dataDir ++ "/wpa_supplicant.conf", "-C", ctrlPath env i, "-W"])]
      [Ev.terminate (suppId i), Ev.waitProc (suppId i)],
   acqRes [Ev.spawn (cliId i) (nsExec (clientNsName i)
      ["wpa_cli", "-i", w.dev, "-p", ctrlPath env i])]
      [Ev.terminate (cliId i), Ev.waitProc (cliId i)]]

/-- `for i, wdev in enumerate(sim_devs)` over the client devices, starting at
index `i`. -/
def clientsSteps (env : Env) : Nat → List WDev → List Step
  | _, [] => []
  | i, w :: ws => clientSteps env i w ++ clientsSteps env (i + 1) ws

/-! ### The connection barrier -/

/-- Whether `needle` is an initial segment of `hay`. -/
def isPre : List Char → List Char → Bool
  | [], _ => true
  | _ :: _, [] => false
  | a :: as, b :: bs => a == b && isPre as bs

/-- Whether `needle` occurs contiguously inside `hay`. -/
def containsSeq (needle : List Char) : List Char → Bool
  | [] => needle.isEmpty
  | b :: bs => isPre needle (b :: bs) || containsSeq needle bs

def markerStr : String := "CTRL-EVENT-CONNECTED"

/-- The `b'CTRL-EVENT-CONNECTED' in line` test of the wait loop. -/
def lineConnected (line : String) : Bool :=
  containsSeq markerStr.toList line.toList

/-- The wait loop over one `wpa_cli`'s stdout: consume lines until one
contains the marker, then break.  Returns the consumed lines, the lines left
unread, and whether the marker was found (reaching end of stream without the
marker just ends the loop). -/
def waitConnected : List String → List String × List String × Bool
  | [] => ([], [], false)
  | l :: ls =>
      if lineConnected l then ([l], ls, true)
      else
        let r := waitConnected ls
        (l :: r.1, r.2.1, r.2.2)

/-- The events of one client's connection wait: the lines read off process
`wid`'s stdout and, when the marker was found, the `wpa_cli.terminate()`
call.  The start/end markers delimit the loop iteration for client `i`. -/
def barrierEvents (i wid : Nat) (ls : List String) : List Ev :=
  [Ev.barrierStart i] ++ (waitConnected ls).1.map (Ev.readLine i) ++
    (if (waitConnected ls).2.2 then [Ev.terminate wid] else []) ++
    [Ev.barrierEnd i]

/-- Client `i`'s stdout lines, as provided by the world. -/
def stream (env : Env) (i : Nat) : List String := env.streams.getD i []

/-- One iteration of `for wpa_cli in wpa_clis`: a plain action, nothing is
pushed onto the stack. -/
def barrierStep (env : Env) (i : Nat) : Step :=
  act (barrierEvents i (cliId i) (stream env i))

def barrierSteps (env : Env) (n : Nat) : List Step :=
  (List.range n).map (barrierStep env)

/-! ### The load-generator clients -/

/-- Process id of client `i`'s `iperf` client, in a run with `n` clients. -/
def iperfClientId (n i : Nat) : Nat := 2 + 2 * n + i

def iperfClientArgv (p : Params) (i : Nat) : List String :=
  nsExec (clientNsName i)
    (["iperf", "-c", "192.168.200.1", "-t", toString p.time] ++ iperfConfig p)

/-- One iteration of `for client_ns in client_namespaces`: spawn the `iperf`
client (enrolled into the cpuset cgroup by its pre-exec hook) and push it
onto the stack; as a plain `Popen`, its release merely waits for it. -/
def iperfClientStep (p : Params) (n i : Nat) : Step :=
  acqRes [Ev.spawn (iperfClientId n i) (iperfClientArgv p i),
      Ev.cgEnroll cpusetCgPath (iperfClientId n i)]
    [Ev.waitProc (iperfClientId n i)]

def iperfClientSteps (p : Params) (n : Nat) : List Step :=
  (List.range n).map (iperfClientStep p n)

/-! ### The whole body of `test` -/

/-- The body of the `with contextlib.ExitStack() as stack:` block, given the
AP device and the client devices produced by discovery. -/
def testSteps (p : Params) (env : Env) (apDev : WDev) (clients : List WDev) :
    List Step :=
  cgroupSteps p env ++ apSteps p env apDev ++ clientsSteps env 0 clients ++
    barrierSteps env clients.length ++ iperfClientSteps p clients.length

/-- Driver (re)loading before the scope: `rmmod` if the module is loaded,
then `modprobe` with `radios=num_clients+1`. -/
def preEvents (p : Params) (env : Env) : List Ev :=
  (if env.moduleLoaded then [Ev.cmd ["rmmod", "mac80211_hwsim"]] else []) ++
    [Ev.cmd ["modprobe", "mac80211_hwsim",
      "radios=" ++ toString (p.numClients + 1)]]

/-- The whole of `test`: driver loading, device discovery, then the scoped
body.  `sim_devs[0]` on an empty discovery raises `IndexError`; there is no
device-count check anywhere, the first discovered device becomes the AP and
the rest become the clients. -/
def runTest (p : Params) (env : Env) (failAt : Option Nat) :
    Except PyErr (List Ev) :=
  match env.devices with
  | [] => Except.error PyErr.indexError
  | apDev :: clients =>
      Except.ok (preEvents p env ++
        (runScope (testSteps p env apDev clients) failAt).1)

/-! ### Daemon.__exit__

`Daemon.__exit__` runs `try: terminate() except ProcessLookupError: pass
finally: return super().__exit__(...)`.  A `return` inside a `finally` block
discards whatever exception is still in flight, so the pending outcome of the
try/except is computed and then dropped. -/

/-- `Popen.terminate()`: raises `ProcessLookupError` when the process no
longer exists, `PermissionError` when the signal is refused, else succeeds. -/
def popenTerminate (alive permitted : Bool) : Except PyErr Unit :=
  if alive = false then Except.error PyErr.processLookupError
  else if permitted = false then Except.error PyErr.permissionError
  else Except.ok ()

/-- `Popen.__exit__`: closes the pipes and waits for the process. -/
def popenExitResult : Except PyErr Unit := Except.ok ()

/-- A `finally:` block ending in `return`: the pending outcome of the
protected code is discarded and the `return`ed value is the result. -/
def finallyReturn (pending ret : Except PyErr Unit) : Except PyErr Unit :=
  let _ := pending
  ret

/-- `Daemon.__exit__` on a process that is (`alive`) or is not still running,
where sending the signal is (`permitted`) or is not allowed. -/
def daemonExit (alive permitted : Bool) : Except PyErr Unit :=
  finallyReturn
    (match popenTerminate alive permitted with
     | Except.error PyErr.processLookupError => Except.ok ()
     | r => r)
    popenExitResult

/-! ### CGroup.__exit__ -/

/-- Observable actions of `CGroup.__exit__`. -/
inductive CgEv where
  | migrate (pid : Nat)
  | rmdirCall
deriving DecidableEq

/-- `CGroup.__exit__`: if the calling pid is listed in the group's `tasks`
file, write it to the parent group's `tasks` file (the kernel then moves the
task out of this group), then `rmdir` the group directory; the kernel refuses
the `rmdir` exactly when the group still has member tasks. -/
def cgDestroy (pid : Nat) (tasks : List Nat) : List CgEv × Except PyErr Unit :=
  ((if pid ∈ tasks then [CgEv.migrate pid] else []) ++ [CgEv.rmdirCall],
   if (tasks.filter (fun t => t != pid)).isEmpty then Except.ok ()
   else Except.error PyErr.osError)

/-! ### Concrete inputs used by witnesses and counterexamples -/

def devA : WDev := ⟨"phy0", "wlan0"⟩

def devB : WDev := ⟨"phy1", "wlan1"⟩

def pTwoClients : Params := ⟨2, "416K", 10, 100, none, none⟩

def envTwoDevs : Env :=
  ⟨false, [devA, devB], 1234, "/opt/hwsim", "0", "0-3", false, false,
   [], [], [], [["CTRL-EVENT-CONNECTED - completed"]]⟩

def envNoDevs : Env :=
  ⟨false, [], 1234, "/opt/hwsim", "0", "0-3", false, false, [], [], [], []⟩

def exceptOk {α : Type} : Except PyErr α → Bool
  | Except.ok _ => true
  | Except.error _ => false

/-! ### C1: guaranteed LIFO release -/

/-- C1: on every run of `test`, complete (`failAt = none`) or interrupted by
the failure of its `k`-th step (`failAt = some k`), the trace consists of the
events of the steps that ran followed by the release actions of exactly the
resources those steps acquired, in reverse (LIFO) order of acquisition; in
particular, when the `k`-th step fails, the resources acquired by steps
`0..k-1` are all still released, most recently acquired first. -/
theorem test_releases_lifo (p : Params) (env : Env) (apDev : WDev)
    (clients : List WDev) (failAt : Option Nat) :
    (runScope (testSteps p env apDev clients) failAt).1 =
      (stepsUpTo (testSteps p env apDev clients) failAt).flatMap Step.events ++
        ((stepsUpTo (testSteps p env apDev clients) failAt).filterMap
            Step.release).reverse.flatten :=
  runScope_trace _ _

/-! ### C3: no device-count check -/

/-- C3 counterexample: a run asked for 2 clients while only 2 devices were
discovered (fewer than clients + 1 AP), yet `test` raises nothing at all —
it silently proceeds with a single client instead of failing with a
`SetupError`. -/
theorem no_device_count_check :
    envTwoDevs.devices.length < pTwoClients.numClients + 1 ∧
    exceptOk (runTest pTwoClients envTwoDevs none) = true :=
  ⟨by decide, rfl⟩

/-- C3 amended: after driver loading, `test` performs no device-count check:
with zero discovered devices `sim_devs[0]` raises `IndexError` (not a
`SetupError`), and with at least one discovered device it proceeds, using the
first device as the AP and every remaining discovered device as a client,
regardless of `num_clients`. -/
theorem discovery_behavior (p : Params) (env : Env) (failAt : Option Nat) :
    (env.devices = [] → runTest p env failAt = Except.error PyErr.indexError) ∧
    ∀ d ds, env.devices = d :: ds →
      runTest p env failAt =
        Except.ok (preEvents p env ++
          (runScope (testSteps p env d ds) failAt).1) := by
  refine ⟨fun h => by simp [runTest, h], fun d ds h => by simp [runTest, h]⟩

theorem discovery_behavior_witness :
    runTest pTwoClients envNoDevs none = Except.error PyErr.indexError ∧
    runTest pTwoClients envTwoDevs none =
      Except.ok (preEvents pTwoClients envTwoDevs ++
        (runScope (testSteps pTwoClients envTwoDevs devA [devB]) none).1) :=
  ⟨(discovery_behavior pTwoClients envNoDevs none).1 rfl,
   (discovery_behavior pTwoClients envTwoDevs none).2 devA [devB] rfl⟩

/-! ### C4: the connection barrier -/

theorem waitConnected_no_marker :
    ∀ ls, (∀ l ∈ ls, lineConnected l = false) →
      waitConnected ls = (ls, [], false) := by
  intro ls
  induction ls with
  | nil => intro _; rfl
  | cons a as ih =>
      intro h
      have ha : lineConnected a = false := h a (by simp)
      have has := ih fun l hl => h l (by simp [hl])
      simp [waitConnected, ha, has]

/-- C4: the wait loop consumes lines up to and including the first line
containing `CTRL-EVENT-CONNECTED`, terminates the `wpa_cli` process, and
leaves every later line unread; a stream that ends without the marker is
consumed in full and the loop ends without any error. -/
theorem connection_barrier_spec (i wid : Nat) (pre post : List String)
    (m : String) (h1 : ∀ l ∈ pre, lineConnected l = false)
    (h2 : lineConnected m = true) :
    (waitConnected (pre ++ m :: post) = (pre ++ [m], post, true) ∧
     barrierEvents i wid (pre ++ m :: post) =
       [Ev.barrierStart i] ++ (pre ++ [m]).map (Ev.readLine i) ++
         [Ev.terminate wid, Ev.barrierEnd i]) ∧
    ∀ ls, (∀ l ∈ ls, lineConnected l = false) →
      waitConnected ls = (ls, [], false) := by
  have hw : waitConnected (pre ++ m :: post) = (pre ++ [m], post, true) := by
    induction pre with
    | nil => simp [waitConnected, h2]
    | cons a as ih =>
        have ha : lineConnected a = false := h1 a (by simp)
        have has := ih fun l hl => h1 l (by simp [hl])
        simp [waitConnected, ha, has]
  exact ⟨⟨hw, by simp [barrierEvents, hw]⟩, waitConnected_no_marker⟩

def markerLine : String :=
  "CTRL-EVENT-CONNECTED - Connection to 02:00:00:00:00:00 completed"

theorem connection_barrier_spec_witness :
    waitConnected ["foo", markerLine, "bar"] =
      (["foo", markerLine], ["bar"], true) ∧
    waitConnected ["foo"] = (["foo"], [], false) := by
  have h := connection_barrier_spec 0 3 ["foo"] ["bar"] markerLine
    (by decide) (by decide)
  exact ⟨h.1.1, h.2 ["foo"] (by decide)⟩

/-! ### C7: releasing a supervised process -/

/-- C7 counterexample: `Daemon.__exit__` does not swallow only the
no-such-process failure — `terminate()` failing with a `PermissionError` is
swallowed just the same, because the `return` in the `finally:` block
discards the in-flight exception. -/
theorem daemon_release_not_lookup_only :
    popenTerminate true false = Except.error PyErr.permissionError ∧
    daemonExit true false = Except.ok () :=
  ⟨rfl, rfl⟩

/-- C7 amended: releasing a `Daemon` requests termination and never raises:
the `except ProcessLookupError: pass` swallows the failure of terminating an
already-exited process (which, as the second conjunct shows, is exactly the
failure such a process produces), and the `return` inside `finally:` discards
any other termination failure as well; so release on an already-dead process
succeeds. -/
theorem daemon_release_never_raises (alive permitted : Bool) :
    daemonExit alive permitted = Except.ok () ∧
    popenTerminate false permitted = Except.error PyErr.processLookupError := by
  cases alive <;> cases permitted <;> exact ⟨rfl, rfl⟩

/-! ### C9: cgroup teardown -/

/-- C9: `CGroup.__exit__` migrates the calling pid to the parent group when
it is still a member, and only then removes the group directory; the removal
succeeds exactly when no task other than the calling pid remained, and fails
when any other task remains after the migration. -/
theorem cgroup_destroy_spec (pid : Nat) (tasks : List Nat) :
    (pid ∈ tasks →
      (cgDestroy pid tasks).1 = [CgEv.migrate pid, CgEv.rmdirCall]) ∧
    ((cgDestroy pid tasks).2 = Except.ok () ↔ ∀ t ∈ tasks, t = pid) ∧
    ((∃ t ∈ tasks, t ≠ pid) →
      (cgDestroy pid tasks).2 = Except.error PyErr.osError) := by
  have hiff : (tasks.filter (fun t => t != pid)).isEmpty = true ↔
      ∀ t ∈ tasks, t = pid := by
    simp [List.isEmpty_iff, List.filter_eq_nil_iff]
  refine ⟨fun h => by simp [cgDestroy, h], ?_, ?_⟩
  · by_cases h : (tasks.filter (fun t => t != pid)).isEmpty = true
    · simp only [cgDestroy, h, if_true]
      simpa using hiff.mp h
    · simp only [cgDestroy, h, if_false]
      constructor
      · intro hc; exact absurd hc (by simp)
      · intro hall; exact absurd (hiff.mpr hall) h
  · intro ⟨t, ht, hne⟩
    have h : ¬ (tasks.filter (fun t => t != pid)).isEmpty = true := by
      intro hc; exact hne (hiff.mp hc t ht)
    simp [cgDestroy, h]

theorem cgroup_destroy_spec_witness :
    (cgDestroy 5 [5, 7]).1 = [CgEv.migrate 5, CgEv.rmdirCall] ∧
    (cgDestroy 5 [5, 7]).2 = Except.error PyErr.osError :=
  ⟨(cgroup_destroy_spec 5 [5, 7]).1 (by decide),
   (cgroup_destroy_spec 5 [5, 7]).2.2 ⟨7, by decide, by decide⟩⟩

/-! ### Trace projections and predicates -/

/-- The namespace created by an event, if any. -/
def nsAddName : Ev → Option String
  | Ev.nsAdd n => some n
  | _ => none

/-- The namespace deleted by an event, if any. -/
def nsDeleteName : Ev → Option String
  | Ev.nsDelete n => some n
  | _ => none

/-- Events belonging to a connection wait: its start, the lines it reads and
its end. -/
def isBarrierEv : Ev → Bool
  | Ev.barrierStart _ => true
  | Ev.readLine _ _ => true
  | Ev.barrierEnd _ => true
  | _ => false

/-- Writes to a control file of the cpu cgroup created by the run. -/
def isCpuCgWrite : Ev → Bool
  | Ev.cgWrite path _ _ => path == cpuCgPath
  | _ => false

/-- Writes to a control file of the cpuset cgroup created by the run. -/
def isCpusetCgWrite : Ev → Bool
  | Ev.cgWrite path _ _ => path == cpusetCgPath
  | _ => false

/-- Spawns of a process whose id is at least `k`. -/
def spawnIdGe (k : Nat) : Ev → Bool
  | Ev.spawn id _ => decide (k ≤ id)
  | _ => false

/-- Waits on any process. -/
def isWaitEv : Ev → Bool
  | Ev.waitProc _ => true
  | _ => false

/-- Waits on a process whose id is at least `k`. -/
def waitIdGe (k : Nat) : Ev → Bool
  | Ev.waitProc id => decide (k ≤ id)
  | _ => false

/-- What client `i`'s connection wait looks like through `isBarrierEv`. -/
def barrierObs (env : Env) (i : Nat) : List Ev :=
  Ev.barrierStart i ::
    ((waitConnected (stream env i)).1.map (Ev.readLine i) ++ [Ev.barrierEnd i])

/-- The release actions registered by the per-client setup loop starting at
client `i`, in push order. -/
def clientRelList (env : Env) : Nat → List WDev → List (List Ev)
  | _, [] => []
  | i, _ :: ws =>
      [[Ev.tmpRemove (tmpName env i)], [Ev.nsDelete (clientNsName i)],
       [Ev.terminate (suppId i), Ev.waitProc (suppId i)],
       [Ev.terminate (cliId i), Ev.waitProc (cliId i)]] ++
        clientRelList env (i + 1) ws

/-! ### Explicit descriptions of each block of the body -/

theorem cgroup_events (p : Params) (env : Env) :
    (cgroupSteps p env).flatMap Step.events =
      cgEnterEvents env.cpuCgExists cpuCgPath ++
        ([Ev.cgWrite cpuCgPath "cpu.cfs_period_us" (toString (100 * 1000)),
          Ev.cgWrite cpuCgPath "cpu.cfs_quota_us" (toString (p.cpulimit * 1000)),
          Ev.cgWrite cpuCgPath "tasks" (toString env.pid)] ++
          (cgEnterEvents env.cpusetCgExists cpusetCgPath ++
            [Ev.cgWrite cpusetCgPath "cpuset.mems" env.parentMems,
             Ev.cgWrite cpusetCgPath "cpuset.cpus"
               (p.cpuset.getD env.parentCpus)])) := by
  cases h : p.cpuset <;> simp [cgroupSteps, act, acqRes, h]

theorem cgroup_releases (p : Params) (env : Env) :
    (cgroupSteps p env).filterMap Step.release =
      [cgExitEvents cpuCgPath "cpu" env.cpuTasksAtExit env.pid,
       cgExitEvents cpusetCgPath "cpuset" env.cpusetTasksAtExit env.pid] := by
  simp [cgroupSteps, act, acqRes, List.filterMap_cons]

theorem ap_events (p : Params) (env : Env) (apDev : WDev) :
    (apSteps p env apDev).flatMap Step.events =
      [Ev.nsAdd "access_point",
       Ev.cmd ["iw", "phy", apDev.phy, "set", "netns", "name", "access_point"],
       Ev.cmd (nsExec "access_point"
         ["ip", "link", "set", "dev", apDev.dev, "name", "wlan_ap"]),
       Ev.cmd (nsExec "access_point"
         ["ip", "addr", "add", "192.168.200.1/24", "broadcast",
          "192.168.200.255", "dev", "wlan_ap"]),
       Ev.spawn 0 (nsExec "access_point"
         ["hostapd", env.dataDir ++ "/hostapd.conf"]),
       Ev.spawn 1 (nsExec "access_point" (["iperf", "-s"] ++ iperfConfig p)),
       Ev.cgEnroll cpusetCgPath 1] := by
  simp [apSteps, act, acqRes]

theorem ap_releases (p : Params) (env : Env) (apDev : WDev) :
    (apSteps p env apDev).filterMap Step.release =
      [[Ev.nsDelete "access_point"],
       [Ev.terminate 0, Ev.waitProc 0],
       [Ev.terminate 1, Ev.waitProc 1]] := by
  simp [apSteps, act, acqRes, List.filterMap_cons]

theorem clients_releases (env : Env) :
    ∀ (ws : List WDev) (i : Nat),
      (clientsSteps env i ws).filterMap Step.release = clientRelList env i ws := by
  intro ws
  induction ws with
  | nil => intro i; rfl
  | cons w ws ih =>
      intro i
      simp [clientsSteps, clientSteps, clientRelList, act, acqRes,
        List.filterMap_append, List.filterMap_cons, ih]

theorem barrier_events_eq (env : Env) :
    ∀ l : List Nat,
      ((l.map (barrierStep env)).flatMap Step.events) =
        l.flatMap (fun i => barrierEvents i (cliId i) (stream env i)) := by
  intro l
  induction l with
  | nil => rfl
  | cons a l ih => simp [barrierStep, act, ih]

theorem barrier_releases (env : Env) :
    ∀ l : List Nat, ((l.map (barrierStep env)).filterMap Step.release) = [] := by
  intro l
  induction l with
  | nil => rfl
  | cons a l ih => simp [barrierStep, act, List.filterMap_cons, ih]

theorem iperf_events_eq (p : Params) (n : Nat) :
    ∀ l : List Nat,
      ((l.map (iperfClientStep p n)).flatMap Step.events) =
        l.flatMap (fun i =>
          [Ev.spawn (iperfClientId n i) (iperfClientArgv p i),
           Ev.cgEnroll cpusetCgPath (iperfClientId n i)]) := by
  intro l
  induction l with
  | nil => rfl
  | cons a l ih => simp [iperfClientStep, acqRes, ih]

theorem iperf_releases (p : Params) (n : Nat) :
    ∀ l : List Nat,
      ((l.map (iperfClientStep p n)).filterMap Step.release) =
        l.map (fun i => [Ev.waitProc (iperfClientId n i)]) := by
  intro l
  induction l with
  | nil => rfl
  | cons a l ih => simp [iperfClientStep, acqRes, List.filterMap_cons, ih]

/-- All the release actions of a complete body, in push order. -/
theorem testSteps_release_list (p : Params) (env : Env) (apDev : WDev)
    (clients : List WDev) :
    (testSteps p env apDev clients).filterMap Step.release =
      ([cgExitEvents cpuCgPath "cpu" env.cpuTasksAtExit env.pid,
        cgExitEvents cpusetCgPath "cpuset" env.cpusetTasksAtExit env.pid,
        [Ev.nsDelete "access_point"],
        [Ev.terminate 0, Ev.waitProc 0],
        [Ev.terminate 1, Ev.waitProc 1]] ++
       clientRelList env 0 clients) ++
      (List.range clients.length).map
        (fun i => [Ev.waitProc (iperfClientId clients.length i)]) := by
  simp only [testSteps, List.filterMap_append, cgroup_releases, ap_releases,
    clients_releases, barrierSteps, iperfClientSteps, barrier_releases,
    iperf_releases]
  simp

/-! ### Membership toolkit -/

theorem flatMap_events_filterMap_nil {α : Type} {f : Ev → Option α}
    {P : List Step} (h : ∀ s ∈ P, ∀ e ∈ s.events, f e = none) :
    (P.flatMap Step.events).filterMap f = [] := by
  rw [List.filterMap_eq_nil_iff]
  intro e he
  rw [List.mem_flatMap] at he
  obtain ⟨s, hs, he⟩ := he
  exact h s hs e he

theorem mem_barrierEvents {e : Ev} {i wid : Nat} {ls : List String}
    (h : e ∈ barrierEvents i wid ls) :
    e = Ev.barrierStart i ∨ (∃ l, e = Ev.readLine i l) ∨
      e = Ev.terminate wid ∨ e = Ev.barrierEnd i := by
  unfold barrierEvents at h
  cases hf : (waitConnected ls).2.2 <;> simp [hf] at h <;> tauto

theorem clientSteps_events (env : Env) (i : Nat) (w : WDev) :
    (clientSteps env i w).flatMap Step.events =
      [Ev.tmpCreate (tmpName env i),
       Ev.nsAdd (clientNsName i),
       Ev.cmd ["iw", "phy", w.phy, "set", "netns", "name", clientNsName i],
       Ev.cmd (nsExec (clientNsName i)
         ["ip", "addr", "add", "192.168.200." ++ toString (i + 2) ++ "/24",
          "broadcast", "192.168.200.255", "dev", w.dev]),
       Ev.spawn (suppId i) (nsExec (clientNsName i)
         ["wpa_supplicant", "-i", w.dev, "-c",
          env.dataDir ++ "/wpa_supplicant.conf", "-C", ctrlPath env i, "-W"]),
       Ev.spawn (cliId i) (nsExec (clientNsName i)
         ["wpa_cli", "-i", w.dev, "-p", ctrlPath env i])] := by
  simp [clientSteps, act, acqRes]

theorem mem_clients_events (env : Env) :
    ∀ (ws : List WDev) (i : Nat) (e : Ev),
      e ∈ (clientsSteps env i ws).flatMap Step.events →
        (∃ a, e = Ev.tmpCreate a) ∨ (∃ a, e = Ev.nsAdd a) ∨
          (∃ a, e = Ev.cmd a) ∨
          (∃ j a, j < i + ws.length ∧
            (e = Ev.spawn (suppId j) a ∨ e = Ev.spawn (cliId j) a)) := by
  intro ws
  induction ws with
  | nil => intro i e h; simp [clientsSteps] at h
  | cons w ws ih =>
      intro i e h
      have hlen : (w :: ws).length = ws.length + 1 := rfl
      simp only [clientsSteps, List.flatMap_append, List.mem_append] at h
      rcases h with h | h
      · rw [clientSteps_events] at h
        simp at h
        rcases h with h | h | h | h | h | h <;> subst h
        · exact Or.inl ⟨_, rfl⟩
        · exact Or.inr (Or.inl ⟨_, rfl⟩)
        · exact Or.inr (Or.inr (Or.inl ⟨_, rfl⟩))
        · exact Or.inr (Or.inr (Or.inl ⟨_, rfl⟩))
        · exact Or.inr (Or.inr (Or.inr ⟨i, _, by rw [hlen]; omega, Or.inl rfl⟩))
        · exact Or.inr (Or.inr (Or.inr ⟨i, _, by rw [hlen]; omega, Or.inr rfl⟩))
      · rcases ih (i + 1) e h with h | h | h | ⟨j, a, hj, hor⟩
        · exact Or.inl h
        · exact Or.inr (Or.inl h)
        · exact Or.inr (Or.inr (Or.inl h))
        · exact Or.inr (Or.inr (Or.inr ⟨j, a, by rw [hlen]; omega, hor⟩))

theorem clients_events_nsAdds (env : Env) :
    ∀ (ws : List WDev) (i : Nat),
      ((clientsSteps env i ws).flatMap Step.events).filterMap nsAddName =
        (List.range' i ws.length).map clientNsName := by
  intro ws
  induction ws with
  | nil => intro i; rfl
  | cons w ws ih =>
      intro i
      simp only [clientsSteps, List.flatMap_append, List.filterMap_append,
        clientSteps_events, ih]
      simp [nsAddName, List.range'_succ]

/-- The shapes of events a release action of a run with `n` clients can emit:
migrating the pid back to a parent cgroup, removing a cgroup directory,
deleting a namespace, removing a scratch directory, terminating/waiting a
daemon (ids below `2 + 2n`), or waiting an `iperf` client. -/
def RelShape (n : Nat) (e : Ev) : Prop :=
  (∃ v, e = Ev.cgWrite "cpu" "tasks" v) ∨
    (∃ v, e = Ev.cgWrite "cpuset" "tasks" v) ∨
    e = Ev.cgRmdir cpuCgPath ∨ e = Ev.cgRmdir cpusetCgPath ∨
    (∃ a, e = Ev.nsDelete a) ∨ (∃ a, e = Ev.tmpRemove a) ∨
    (∃ id, id < 2 + 2 * n ∧ (e = Ev.terminate id ∨ e = Ev.waitProc id)) ∨
    (∃ i, i < n ∧ e = Ev.waitProc (iperfClientId n i))

theorem relShape_clientRel (env : Env) :
    ∀ (ws : List WDev) (i n : Nat), i + ws.length ≤ n →
      ∀ l ∈ clientRelList env i ws, ∀ e ∈ l, RelShape n e := by
  intro ws
  induction ws with
  | nil => intro i n _ l hl; simp [clientRelList] at hl
  | cons w ws ih =>
      intro i n hn l hl e he
      have hlen : (w :: ws).length = ws.length + 1 := rfl
      rw [hlen] at hn
      simp only [clientRelList, List.cons_append, List.nil_append,
        List.mem_cons] at hl
      rcases hl with hl | hl | hl | hl | hl
      · subst hl; simp at he; subst he
        exact Or.inr (Or.inr (Or.inr (Or.inr (Or.inr (Or.inl ⟨_, rfl⟩)))))
      · subst hl; simp at he; subst he
        exact Or.inr (Or.inr (Or.inr (Or.inr (Or.inl ⟨_, rfl⟩))))
      · subst hl; simp at he
        refine Or.inr (Or.inr (Or.inr (Or.inr (Or.inr (Or.inr (Or.inl
          ⟨suppId i, by simp [suppId]; omega, ?_⟩))))))
        rcases he with he | he <;> subst he
        · exact Or.inl rfl
        · exact Or.inr rfl
      · subst hl; simp at he
        refine Or.inr (Or.inr (Or.inr (Or.inr (Or.inr (Or.inr (Or.inl
          ⟨cliId i, by simp [cliId]; omega, ?_⟩))))))
        rcases he with he | he <;> subst he
        · exact Or.inl rfl
        · exact Or.inr rfl
      · exact ih (i + 1) n (by omega) l hl e he

theorem relShape_of_mem (p : Params) (env : Env) (apDev : WDev)
    (clients : List WDev) :
    ∀ l ∈ (testSteps p env apDev clients).filterMap Step.release,
      ∀ e ∈ l, RelShape clients.length e := by
  intro l hl e he
  rw [testSteps_release_list] at hl
  simp only [List.cons_append, List.nil_append, List.mem_append,
    List.mem_cons] at hl
  rcases hl with hl | hl | hl | hl | hl | hl | hl
  · subst hl
    unfold cgExitEvents at he
    rcases List.mem_append.mp he with he | he
    · split at he <;> simp at he
      subst he; exact Or.inl ⟨_, rfl⟩
    · simp at he; subst he; exact Or.inr (Or.inr (Or.inl rfl))
  · subst hl
    unfold cgExitEvents at he
    rcases List.mem_append.mp he with he | he
    · split at he <;> simp at he
      subst he; exact Or.inr (Or.inl ⟨_, rfl⟩)
    · simp at he; subst he; exact Or.inr (Or.inr (Or.inr (Or.inl rfl)))
  · subst hl; simp at he; subst he
    exact Or.inr (Or.inr (Or.inr (Or.inr (Or.inl ⟨_, rfl⟩))))
  · subst hl; simp at he
    refine Or.inr (Or.inr (Or.inr (Or.inr (Or.inr (Or.inr (Or.inl
      ⟨0, by omega, ?_⟩))))))
    rcases he with he | he <;> subst he
    · exact Or.inl rfl
    · exact Or.inr rfl
  · subst hl; simp at he
    refine Or.inr (Or.inr (Or.inr (Or.inr (Or.inr (Or.inr (Or.inl
      ⟨1, by omega, ?_⟩))))))
    rcases he with he | he <;> subst he
    · exact Or.inl rfl
    · exact Or.inr rfl
  · exact relShape_clientRel env clients 0 clients.length (by simp) l hl e he
  · rw [List.mem_map] at hl
    obtain ⟨i, hi, hl⟩ := hl
    rw [List.mem_range] at hi
    subst hl; simp at he; subst he
    exact Or.inr (Or.inr (Or.inr (Or.inr (Or.inr (Or.inr (Or.inr
      ⟨i, hi, rfl⟩))))))

/-- Every event of the release phase of a complete run has a release shape. -/
theorem relShape_of_mem_flatten {p : Params} {env : Env} {apDev : WDev}
    {clients : List WDev} {e : Ev}
    (he : e ∈
      ((testSteps p env apDev clients).filterMap Step.release).reverse.flatten) :
    RelShape clients.length e := by
  rw [List.mem_flatten] at he
  obtain ⟨l, hl, he⟩ := he
  rw [List.mem_reverse] at hl
  exact relShape_of_mem p env apDev clients l hl e he

theorem mem_barrier_block (env : Env) {e : Ev} :
    ∀ {l : List Nat}, e ∈ (l.map (barrierStep env)).flatMap Step.events →
      ∃ i ∈ l, e = Ev.barrierStart i ∨ (∃ s, e = Ev.readLine i s) ∨
        e = Ev.terminate (cliId i) ∨ e = Ev.barrierEnd i := by
  intro l h
  rw [barrier_events_eq] at h
  rw [List.mem_flatMap] at h
  obtain ⟨i, hi, he⟩ := h
  exact ⟨i, hi, mem_barrierEvents he⟩

/-! ### Namespace bookkeeping: every created namespace is deleted, LIFO -/

/-- A step whose events delete no namespace and whose release action creates
no namespace and deletes exactly the namespaces the step created, in reverse
order. -/
def NsBalanced (s : Step) : Prop :=
  s.events.filterMap nsDeleteName = [] ∧
    (s.release.getD []).filterMap nsAddName = [] ∧
    (s.release.getD []).filterMap nsDeleteName =
      (s.events.filterMap nsAddName).reverse

theorem rel_dels_eq_adds_reverse :
    ∀ P : List Step, (∀ s ∈ P, NsBalanced s) →
      ((P.filterMap Step.release).reverse.flatten).filterMap nsDeleteName =
        ((P.flatMap Step.events).filterMap nsAddName).reverse := by
  intro P
  induction P with
  | nil => intro _; rfl
  | cons s P ih =>
      intro h
      obtain ⟨h1, h2, h3⟩ := h s (by simp)
      have ihP := ih fun t ht => h t (by simp [ht])
      cases hr : s.release with
      | none =>
          have h3' : (s.events.filterMap nsAddName).reverse = [] := by
            simpa [hr] using h3.symm
          simp [List.filterMap_cons, hr, List.filterMap_append, ihP, h3']
      | some r =>
          have h2' : r.filterMap nsAddName = [] := by simpa [hr] using h2
          have h3' : r.filterMap nsDeleteName =
              (s.events.filterMap nsAddName).reverse := by
            simpa [hr] using h3
          simp [List.filterMap_cons, hr, List.filterMap_append,
            List.flatten_append, List.reverse_append, ihP, h2', h3']

theorem nsAdds_cgEnter (b : Bool) (path : String) :
    (cgEnterEvents b path).filterMap nsAddName = [] := by cases b <;> rfl

theorem nsDels_cgEnter (b : Bool) (path : String) :
    (cgEnterEvents b path).filterMap nsDeleteName = [] := by cases b <;> rfl

theorem nsAdds_cgExit (path par : String) (tasks : List Nat) (pid : Nat) :
    (cgExitEvents path par tasks pid).filterMap nsAddName = [] := by
  unfold cgExitEvents
  rw [List.filterMap_append]
  split <;> rfl

theorem nsDels_cgExit (path par : String) (tasks : List Nat) (pid : Nat) :
    (cgExitEvents path par tasks pid).filterMap nsDeleteName = [] := by
  unfold cgExitEvents
  rw [List.filterMap_append]
  split <;> rfl

theorem nsAdds_barrierEvents (i wid : Nat) (ls : List String) :
    (barrierEvents i wid ls).filterMap nsAddName = [] := by
  rw [List.filterMap_eq_nil_iff]
  intro e he
  rcases mem_barrierEvents he with h | ⟨l, h⟩ | h | h <;> subst h <;> rfl

theorem nsDels_barrierEvents (i wid : Nat) (ls : List String) :
    (barrierEvents i wid ls).filterMap nsDeleteName = [] := by
  rw [List.filterMap_eq_nil_iff]
  intro e he
  rcases mem_barrierEvents he with h | ⟨l, h⟩ | h | h <;> subst h <;> rfl

theorem clients_nsBalanced (env : Env) :
    ∀ (ws : List WDev) (i : Nat), ∀ s ∈ clientsSteps env i ws, NsBalanced s := by
  intro ws
  induction ws with
  | nil => intro i s hs; simp [clientsSteps] at hs
  | cons w ws ih =>
      intro i s hs
      rcases List.mem_append.mp hs with hs | hs
      · simp only [clientSteps, List.mem_cons] at hs
        rcases hs with h | h | h | h | h | h
        · subst h; exact ⟨rfl, rfl, rfl⟩
        · subst h
          refine ⟨rfl, rfl, ?_⟩
          rfl
        · subst h; exact ⟨rfl, rfl, rfl⟩
        · subst h; exact ⟨rfl, rfl, rfl⟩
        · subst h; exact ⟨rfl, rfl, rfl⟩
        · simp at h; subst h; exact ⟨rfl, rfl, rfl⟩
      · exact ih (i + 1) s hs

theorem testSteps_nsBalanced (p : Params) (env : Env) (apDev : WDev)
    (clients : List WDev) :
    ∀ s ∈ testSteps p env apDev clients, NsBalanced s := by
  intro s hs
  simp only [testSteps, List.mem_append] at hs
  rcases hs with (((hs | hs) | hs) | hs) | hs
  · simp only [cgroupSteps, List.mem_cons] at hs
    rcases hs with h | h | h | h | h | h | h
    · subst h
      exact ⟨nsDels_cgEnter _ _, by simp [acqRes, nsAdds_cgExit],
        by simp [acqRes, nsDels_cgExit, nsAdds_cgEnter]⟩
    · subst h; exact ⟨rfl, rfl, rfl⟩
    · subst h; exact ⟨rfl, rfl, rfl⟩
    · subst h; exact ⟨rfl, rfl, rfl⟩
    · subst h
      exact ⟨nsDels_cgEnter _ _, by simp [acqRes, nsAdds_cgExit],
        by simp [acqRes, nsDels_cgExit, nsAdds_cgEnter]⟩
    · subst h; exact ⟨rfl, rfl, rfl⟩
    · simp at h; subst h; exact ⟨rfl, rfl, rfl⟩
  · simp only [apSteps, List.mem_cons] at hs
    rcases hs with h | h | h | h | h | h
    · subst h; exact ⟨rfl, rfl, rfl⟩
    · subst h; exact ⟨rfl, rfl, rfl⟩
    · subst h; exact ⟨rfl, rfl, rfl⟩
    · subst h; exact ⟨rfl, rfl, rfl⟩
    · subst h; exact ⟨rfl, rfl, rfl⟩
    · simp at h; subst h; exact ⟨rfl, rfl, rfl⟩
  · exact clients_nsBalanced env clients 0 s hs
  · rw [barrierSteps, List.mem_map] at hs
    obtain ⟨i, _, hs⟩ := hs
    subst hs
    exact ⟨nsDels_barrierEvents _ _ _, rfl,
      by simp [barrierStep, act, nsAdds_barrierEvents]⟩
  · rw [iperfClientSteps, List.mem_map] at hs
    obtain ⟨i, _, hs⟩ := hs
    subst hs
    exact ⟨rfl, rfl, rfl⟩

theorem mem_stepsUpTo {s : Step} {steps : List Step} {failAt : Option Nat}
    (h : s ∈ stepsUpTo steps failAt) : s ∈ steps := by
  cases failAt with
  | none => exact h
  | some k => exact List.take_subset k steps h

theorem nsAdds_cg_block (p : Params) (env : Env) :
    ((cgroupSteps p env).flatMap Step.events).filterMap nsAddName = [] := by
  rw [cgroup_events]
  simp [List.filterMap_append, nsAdds_cgEnter, nsAddName]

theorem nsAdds_ap_block (p : Params) (env : Env) (apDev : WDev) :
    ((apSteps p env apDev).flatMap Step.events).filterMap nsAddName =
      ["access_point"] := by
  rw [ap_events]
  simp [nsAddName]

theorem nsAdds_barrier_block (env : Env) (l : List Nat) :
    ((l.map (barrierStep env)).flatMap Step.events).filterMap nsAddName = [] := by
  rw [List.filterMap_eq_nil_iff]
  intro e he
  rcases mem_barrier_block env he with ⟨i, _, h | ⟨s', h⟩ | h | h⟩ <;>
    subst h <;> rfl

theorem nsAdds_iperf_block (p : Params) (n : Nat) (l : List Nat) :
    ((l.map (iperfClientStep p n)).flatMap Step.events).filterMap nsAddName =
      [] := by
  rw [iperf_events_eq, List.filterMap_eq_nil_iff]
  intro e he
  rw [List.mem_flatMap] at he
  obtain ⟨i, _, he⟩ := he
  simp at he
  rcases he with h | h <;> subst h <;> rfl

theorem nsAdds_releases (p : Params) (env : Env) (apDev : WDev)
    (clients : List WDev) :
    (((testSteps p env apDev clients).filterMap
        Step.release).reverse.flatten).filterMap nsAddName = [] := by
  rw [List.filterMap_eq_nil_iff]
  intro e he
  rcases relShape_of_mem_flatten he with ⟨v, h⟩ | ⟨v, h⟩ | h | h | ⟨a, h⟩ |
    ⟨a, h⟩ | ⟨id, _, h | h⟩ | ⟨i, _, h⟩ <;> subst h <;> rfl

/-- C2: a complete run creates exactly the namespaces `access_point`,
`client0`, ..., `client{C-1}` (one per client device), in that order; and on
every run, complete or failed at any step, the namespaces deleted are exactly
the namespaces created, in reverse order — so the net number of namespaces
left behind is zero. -/
theorem namespace_lifecycle (p : Params) (env : Env) (apDev : WDev)
    (clients : List WDev) :
    ((runScope (testSteps p env apDev clients) none).1.filterMap nsAddName =
      "access_point" :: (List.range clients.length).map clientNsName) ∧
    ∀ failAt,
      (runScope (testSteps p env apDev clients) failAt).1.filterMap
          nsDeleteName =
        ((runScope (testSteps p env apDev clients) failAt).1.filterMap
            nsAddName).reverse := by
  constructor
  · rw [runScope_trace, List.filterMap_append]
    have hrel := nsAdds_releases p env apDev clients
    simp only [stepsUpTo] at *
    rw [hrel, List.append_nil]
    simp only [testSteps, List.flatMap_append, List.filterMap_append]
    rw [nsAdds_cg_block, nsAdds_ap_block, clients_events_nsAdds,
      barrierSteps, nsAdds_barrier_block, iperfClientSteps, nsAdds_iperf_block]
    simp [List.range_eq_range']
  · intro failAt
    rw [runScope_trace]
    have hbal : ∀ s ∈ stepsUpTo (testSteps p env apDev clients) failAt,
        NsBalanced s :=
      fun s hs => testSteps_nsBalanced p env apDev clients s (mem_stepsUpTo hs)
    have hdelsE : ((stepsUpTo (testSteps p env apDev clients)
        failAt).flatMap Step.events).filterMap nsDeleteName = [] :=
      flatMap_events_filterMap_nil fun s hs e he =>
        (List.filterMap_eq_nil_iff.mp (hbal s hs).1) e he
    have haddsR : (((stepsUpTo (testSteps p env apDev clients)
        failAt).filterMap Step.release).reverse.flatten).filterMap
          nsAddName = [] := by
      rw [List.filterMap_eq_nil_iff]
      intro e he
      rw [List.mem_flatten] at he
      obtain ⟨l, hl, he⟩ := he
      rw [List.mem_reverse, List.mem_filterMap] at hl
      obtain ⟨s, hs, hrel⟩ := hl
      have h2 := (hbal s hs).2.1
      rw [hrel] at h2
      exact (List.filterMap_eq_nil_iff.mp h2) e he
    have hcore := rel_dels_eq_adds_reverse _ hbal
    rw [List.filterMap_append, List.filterMap_append, hdelsE, haddsR, hcore]
    simp

/-! ### Filtering the trace by event class -/

theorem filter_eq_nil_of_mem {q : Ev → Bool} {l : List Ev}
    (h : ∀ e ∈ l, q e = false) : l.filter q = [] := by
  rw [List.filter_eq_nil_iff]
  intro e he
  simp [h e he]

theorem countP_eq_zero_of_mem {q : Ev → Bool} {l : List Ev}
    (h : ∀ e ∈ l, q e = false) : l.countP q = 0 := by
  rw [List.countP_eq_zero]
  intro e he
  simp [h e he]

theorem mem_cgEnter {e : Ev} {b : Bool} {path : String}
    (h : e ∈ cgEnterEvents b path) : e = Ev.cgMkdir path := by
  unfold cgEnterEvents at h
  split at h
  · simp at h
  · simpa using h

theorem mem_cg_events {p : Params} {env : Env} {e : Ev}
    (he : e ∈ (cgroupSteps p env).flatMap Step.events) :
    (∃ a, e = Ev.cgMkdir a) ∨ ∃ a k v, e = Ev.cgWrite a k v := by
  rw [cgroup_events] at he
  rcases List.mem_append.mp he with he | he
  · exact Or.inl ⟨_, mem_cgEnter he⟩
  · rcases List.mem_append.mp he with he | he
    · simp at he
      rcases he with h | h | h <;> subst h <;> exact Or.inr ⟨_, _, _, rfl⟩
    · rcases List.mem_append.mp he with he | he
      · exact Or.inl ⟨_, mem_cgEnter he⟩
      · simp at he
        rcases he with h | h <;> subst h <;> exact Or.inr ⟨_, _, _, rfl⟩

theorem mem_ap_events {p : Params} {env : Env} {apDev : WDev} {e : Ev}
    (he : e ∈ (apSteps p env apDev).flatMap Step.events) :
    (∃ a, e = Ev.nsAdd a) ∨ (∃ a, e = Ev.cmd a) ∨
      (∃ id a, id ≤ 1 ∧ e = Ev.spawn id a) ∨
      ∃ a id, e = Ev.cgEnroll a id := by
  rw [ap_events] at he
  simp at he
  rcases he with h | h | h | h | h | h | h <;> subst h
  · exact Or.inl ⟨_, rfl⟩
  · exact Or.inr (Or.inl ⟨_, rfl⟩)
  · exact Or.inr (Or.inl ⟨_, rfl⟩)
  · exact Or.inr (Or.inl ⟨_, rfl⟩)
  · exact Or.inr (Or.inr (Or.inl ⟨0, _, by omega, rfl⟩))
  · exact Or.inr (Or.inr (Or.inl ⟨1, _, by omega, rfl⟩))
  · exact Or.inr (Or.inr (Or.inr ⟨_, _, rfl⟩))

theorem mem_iperf_block {p : Params} {n : Nat} {e : Ev} {l : List Nat}
    (he : e ∈ (l.map (iperfClientStep p n)).flatMap Step.events) :
    ∃ i ∈ l, e = Ev.spawn (iperfClientId n i) (iperfClientArgv p i) ∨
      e = Ev.cgEnroll cpusetCgPath (iperfClientId n i) := by
  rw [iperf_events_eq] at he
  rw [List.mem_flatMap] at he
  obtain ⟨i, hi, he⟩ := he
  simp at he
  exact ⟨i, hi, he⟩

/-! ### C5: the waits are sequential, once per client, in order -/

theorem filter_readLines (i : Nat) (c : List String) :
    (c.map (Ev.readLine i)).filter isBarrierEv = c.map (Ev.readLine i) := by
  induction c with
  | nil => rfl
  | cons a c ih => simp [isBarrierEv, ih]

theorem filter_barrierEvents (i wid : Nat) (ls : List String) :
    (barrierEvents i wid ls).filter isBarrierEv =
      Ev.barrierStart i ::
        ((waitConnected ls).1.map (Ev.readLine i) ++ [Ev.barrierEnd i]) := by
  unfold barrierEvents
  cases hf : (waitConnected ls).2.2 <;>
    simp [List.filter_append, hf, isBarrierEv, filter_readLines]

theorem barrier_block_filter (env : Env) :
    ∀ l : List Nat,
      ((l.map (barrierStep env)).flatMap Step.events).filter isBarrierEv =
        l.flatMap (barrierObs env) := by
  intro l
  induction l with
  | nil => rfl
  | cons a l ih =>
      simp only [List.map_cons, List.flatMap_cons, List.filter_append,
        barrierStep, act, ih]
      rw [filter_barrierEvents]
      rfl

theorem noBarrier_cg (p : Params) (env : Env) :
    ((cgroupSteps p env).flatMap Step.events).filter isBarrierEv = [] :=
  filter_eq_nil_of_mem fun e he => by
    rcases mem_cg_events he with ⟨a, h⟩ | ⟨a, k, v, h⟩ <;> subst h <;> rfl

theorem noBarrier_ap (p : Params) (env : Env) (apDev : WDev) :
    ((apSteps p env apDev).flatMap Step.events).filter isBarrierEv = [] :=
  filter_eq_nil_of_mem fun e he => by
    rcases mem_ap_events he with ⟨a, h⟩ | ⟨a, h⟩ | ⟨id, a, _, h⟩ |
      ⟨a, id, h⟩ <;> subst h <;> rfl

theorem noBarrier_clients (env : Env) (ws : List WDev) (i : Nat) :
    ((clientsSteps env i ws).flatMap Step.events).filter isBarrierEv = [] :=
  filter_eq_nil_of_mem fun e he => by
    rcases mem_clients_events env ws i e he with ⟨a, h⟩ | ⟨a, h⟩ | ⟨a, h⟩ |
      ⟨j, a, _, h | h⟩ <;> subst h <;> rfl

theorem noBarrier_iperf (p : Params) (n : Nat) (l : List Nat) :
    ((l.map (iperfClientStep p n)).flatMap Step.events).filter isBarrierEv =
      [] :=
  filter_eq_nil_of_mem fun e he => by
    obtain ⟨i, _, h | h⟩ := mem_iperf_block he <;> subst h <;> rfl

theorem noBarrier_releases (p : Params) (env : Env) (apDev : WDev)
    (clients : List WDev) :
    (((testSteps p env apDev clients).filterMap
        Step.release).reverse.flatten).filter isBarrierEv = [] :=
  filter_eq_nil_of_mem fun e he => by
    rcases relShape_of_mem_flatten he with ⟨v, h⟩ | ⟨v, h⟩ | h | h | ⟨a, h⟩ |
      ⟨a, h⟩ | ⟨id, _, h | h⟩ | ⟨i, _, h⟩ <;> subst h <;> rfl

/-- C5: through `isBarrierEv`, the trace of a complete run is exactly one
connection wait per client, laid out consecutively in client order `0, 1,
..., C-1`: client `i+1`'s wait starts only after client `i`'s wait has ended
(by marker or end of stream), and no two waits interleave. -/
theorem connection_waits_sequential (p : Params) (env : Env) (apDev : WDev)
    (clients : List WDev) :
    (runScope (testSteps p env apDev clients) none).1.filter isBarrierEv =
      (List.range clients.length).flatMap (barrierObs env) := by
  rw [runScope_trace]
  simp only [stepsUpTo]
  rw [List.filter_append, noBarrier_releases, List.append_nil]
  simp only [testSteps, List.flatMap_append, List.filter_append]
  rw [noBarrier_cg, noBarrier_ap, noBarrier_clients, barrierSteps,
    barrier_block_filter, iperfClientSteps, noBarrier_iperf]
  simp

/-! ### C8 and C10: the cgroup control-file writes -/

theorem cpuW_cg_block (p : Params) (env : Env) :
    ((cgroupSteps p env).flatMap Step.events).filter isCpuCgWrite =
      [Ev.cgWrite cpuCgPath "cpu.cfs_period_us" (toString (100 * 1000)),
       Ev.cgWrite cpuCgPath "cpu.cfs_quota_us" (toString (p.cpulimit * 1000)),
       Ev.cgWrite cpuCgPath "tasks" (toString env.pid)] := by
  rw [cgroup_events]
  have e1 : ∀ e ∈ cgEnterEvents env.cpuCgExists cpuCgPath,
      isCpuCgWrite e = false := fun e he => by rw [mem_cgEnter he]; rfl
  have e2 : ∀ e ∈ cgEnterEvents env.cpusetCgExists cpusetCgPath,
      isCpuCgWrite e = false := fun e he => by rw [mem_cgEnter he]; rfl
  have h1 : (cpuCgPath == cpuCgPath) = true := by decide
  have h2 : (cpusetCgPath == cpuCgPath) = false := by decide
  rw [List.filter_append, filter_eq_nil_of_mem e1, List.filter_append,
    List.filter_append, filter_eq_nil_of_mem e2]
  simp [isCpuCgWrite, h1, h2]

theorem cpusetW_cg_block (p : Params) (env : Env) :
    ((cgroupSteps p env).flatMap Step.events).filter isCpusetCgWrite =
      [Ev.cgWrite cpusetCgPath "cpuset.mems" env.parentMems,
       Ev.cgWrite cpusetCgPath "cpuset.cpus" (p.cpuset.getD env.parentCpus)] := by
  rw [cgroup_events]
  have e1 : ∀ e ∈ cgEnterEvents env.cpuCgExists cpuCgPath,
      isCpusetCgWrite e = false := fun e he => by rw [mem_cgEnter he]; rfl
  have e2 : ∀ e ∈ cgEnterEvents env.cpusetCgExists cpusetCgPath,
      isCpusetCgWrite e = false := fun e he => by rw [mem_cgEnter he]; rfl
  have h1 : (cpusetCgPath == cpusetCgPath) = true := by decide
  have h2 : (cpuCgPath == cpusetCgPath) = false := by decide
  rw [List.filter_append, filter_eq_nil_of_mem e1, List.filter_append,
    List.filter_append, filter_eq_nil_of_mem e2]
  simp [isCpusetCgWrite, h1, h2]

theorem noCgW_ap {q : Ev → Bool} (p : Params) (env : Env) (apDev : WDev)
    (hns : ∀ a, q (Ev.nsAdd a) = false) (hcmd : ∀ a, q (Ev.cmd a) = false)
    (hsp : ∀ id a, q (Ev.spawn id a) = false)
    (hen : ∀ a id, q (Ev.cgEnroll a id) = false) :
    ((apSteps p env apDev).flatMap Step.events).filter q = [] :=
  filter_eq_nil_of_mem fun e he => by
    rcases mem_ap_events he with ⟨a, h⟩ | ⟨a, h⟩ | ⟨id, a, _, h⟩ |
      ⟨a, id, h⟩ <;> subst h
    · exact hns a
    · exact hcmd a
    · exact hsp id a
    · exact hen a id

theorem noCgW_clients {q : Ev → Bool} (env : Env) (ws : List WDev) (i : Nat)
    (htmp : ∀ a, q (Ev.tmpCreate a) = false)
    (hns : ∀ a, q (Ev.nsAdd a) = false) (hcmd : ∀ a, q (Ev.cmd a) = false)
    (hsp : ∀ id a, q (Ev.spawn id a) = false) :
    ((clientsSteps env i ws).flatMap Step.events).filter q = [] :=
  filter_eq_nil_of_mem fun e he => by
    rcases mem_clients_events env ws i e he with ⟨a, h⟩ | ⟨a, h⟩ | ⟨a, h⟩ |
      ⟨j, a, _, h | h⟩ <;> subst h
    · exact htmp a
    · exact hns a
    · exact hcmd a
    · exact hsp _ a
    · exact hsp _ a

theorem noCgW_barrier {q : Ev → Bool} (env : Env) (l : List Nat)
    (hst : ∀ i, q (Ev.barrierStart i) = false)
    (hrd : ∀ i s, q (Ev.readLine i s) = false)
    (htm : ∀ i, q (Ev.terminate i) = false)
    (hen : ∀ i, q (Ev.barrierEnd i) = false) :
    ((l.map (barrierStep env)).flatMap Step.events).filter q = [] :=
  filter_eq_nil_of_mem fun e he => by
    rcases mem_barrier_block env he with ⟨i, _, h | ⟨s', h⟩ | h | h⟩ <;> subst h
    · exact hst i
    · exact hrd i s'
    · exact htm _
    · exact hen i

theorem noCgW_iperf {q : Ev → Bool} (p : Params) (n : Nat) (l : List Nat)
    (hsp : ∀ id a, q (Ev.spawn id a) = false)
    (hen : ∀ a id, q (Ev.cgEnroll a id) = false) :
    ((l.map (iperfClientStep p n)).flatMap Step.events).filter q = [] :=
  filter_eq_nil_of_mem fun e he => by
    obtain ⟨i, _, h | h⟩ := mem_iperf_block he <;> subst h
    · exact hsp _ _
    · exact hen _ _

theorem noCpuW_releases (p : Params) (env : Env) (apDev : WDev)
    (clients : List WDev) :
    (((testSteps p env apDev clients).filterMap
        Step.release).reverse.flatten).filter isCpuCgWrite = [] :=
  filter_eq_nil_of_mem fun e he => by
    have d1 : (("cpu" : String) == cpuCgPath) = false := by decide
    have d2 : (("cpuset" : String) == cpuCgPath) = false := by decide
    rcases relShape_of_mem_flatten he with ⟨v, h⟩ | ⟨v, h⟩ | h | h | ⟨a, h⟩ |
      ⟨a, h⟩ | ⟨id, _, h | h⟩ | ⟨i, _, h⟩ <;> subst h <;>
      simp [isCpuCgWrite, d1, d2]

theorem noCpusetW_releases (p : Params) (env : Env) (apDev : WDev)
    (clients : List WDev) :
    (((testSteps p env apDev clients).filterMap
        Step.release).reverse.flatten).filter isCpusetCgWrite = [] :=
  filter_eq_nil_of_mem fun e he => by
    have d1 : (("cpu" : String) == cpusetCgPath) = false := by decide
    have d2 : (("cpuset" : String) == cpusetCgPath) = false := by decide
    rcases relShape_of_mem_flatten he with ⟨v, h⟩ | ⟨v, h⟩ | h | h | ⟨a, h⟩ |
      ⟨a, h⟩ | ⟨id, _, h | h⟩ | ⟨i, _, h⟩ <;> subst h <;>
      simp [isCpusetCgWrite, d1, d2]

/-- C8: the complete sequence of writes a run makes to its cpu cgroup's
control files is: the period control with value `100 * 1000`, then the quota
control with value `cpulimit * 1000`, then the `tasks` file with the
orchestrator's own pid (the self-enrollment, last); and the period value
renders as `100000`. -/
theorem cpu_cgroup_writes (p : Params) (env : Env) (apDev : WDev)
    (clients : List WDev) :
    ((runScope (testSteps p env apDev clients) none).1.filter isCpuCgWrite =
      [Ev.cgWrite cpuCgPath "cpu.cfs_period_us" (toString (100 * 1000)),
       Ev.cgWrite cpuCgPath "cpu.cfs_quota_us" (toString (p.cpulimit * 1000)),
       Ev.cgWrite cpuCgPath "tasks" (toString env.pid)]) ∧
    toString (100 * 1000) = "100000" := by
  refine ⟨?_, by decide⟩
  rw [runScope_trace]
  simp only [stepsUpTo]
  rw [List.filter_append, noCpuW_releases, List.append_nil]
  simp only [testSteps, List.flatMap_append, List.filter_append]
  rw [cpuW_cg_block, barrierSteps, iperfClientSteps,
    noCgW_ap p env apDev (fun a => rfl) (fun a => rfl)
      (fun id a => rfl) (fun a id => rfl),
    noCgW_clients env clients 0 (fun a => rfl) (fun a => rfl) (fun a => rfl)
      (fun id a => rfl),
    noCgW_barrier env (List.range clients.length) (fun i => rfl)
      (fun i s => rfl) (fun i => rfl) (fun i => rfl),
    noCgW_iperf p clients.length (List.range clients.length)
      (fun id a => rfl) (fun a id => rfl)]
  simp

/-- C10: the complete sequence of writes a run makes to its cpuset cgroup's
control files is: `cpuset.mems` with the value read from the parent group —
written unconditionally, whatever the `cpuset` parameter is — then
`cpuset.cpus` with the `cpuset` parameter if given and the parent group's
value otherwise. -/
theorem cpuset_cgroup_writes (p : Params) (env : Env) (apDev : WDev)
    (clients : List WDev) :
    (runScope (testSteps p env apDev clients) none).1.filter isCpusetCgWrite =
      [Ev.cgWrite cpusetCgPath "cpuset.mems" env.parentMems,
       Ev.cgWrite cpusetCgPath "cpuset.cpus" (p.cpuset.getD env.parentCpus)] := by
  rw [runScope_trace]
  simp only [stepsUpTo]
  rw [List.filter_append, noCpusetW_releases, List.append_nil]
  simp only [testSteps, List.flatMap_append, List.filter_append]
  rw [cpusetW_cg_block, barrierSteps, iperfClientSteps,
    noCgW_ap p env apDev (fun a => rfl) (fun a => rfl)
      (fun id a => rfl) (fun a id => rfl),
    noCgW_clients env clients 0 (fun a => rfl) (fun a => rfl) (fun a => rfl)
      (fun id a => rfl),
    noCgW_barrier env (List.range clients.length) (fun i => rfl)
      (fun i s => rfl) (fun i => rfl) (fun i => rfl),
    noCgW_iperf p clients.length (List.range clients.length)
      (fun id a => rfl) (fun a id => rfl)]
  simp

/-! ### C6: counting helpers -/

theorem mem_cgExit {e : Ev} {path par : String} {tasks : List Nat} {pid : Nat}
    (he : e ∈ cgExitEvents path par tasks pid) :
    (∃ v, e = Ev.cgWrite par "tasks" v) ∨ e = Ev.cgRmdir path := by
  unfold cgExitEvents at he
  rcases List.mem_append.mp he with he | he
  · split at he <;> simp at he
    subst he; exact Or.inl ⟨_, rfl⟩
  · simp at he; subst he; exact Or.inr rfl

theorem cnt0_cg {q : Ev → Bool} (p : Params) (env : Env)
    (hmk : ∀ a, q (Ev.cgMkdir a) = false)
    (hw : ∀ a k v, q (Ev.cgWrite a k v) = false) :
    ((cgroupSteps p env).flatMap Step.events).countP q = 0 :=
  countP_eq_zero_of_mem fun e he => by
    rcases mem_cg_events he with ⟨a, h⟩ | ⟨a, k, v, h⟩ <;> subst h
    · exact hmk a
    · exact hw a k v

theorem cnt0_ap {q : Ev → Bool} (p : Params) (env : Env) (apDev : WDev)
    (hns : ∀ a, q (Ev.nsAdd a) = false) (hcmd : ∀ a, q (Ev.cmd a) = false)
    (hsp : ∀ id a, id ≤ 1 → q (Ev.spawn id a) = false)
    (hen : ∀ a id, q (Ev.cgEnroll a id) = false) :
    ((apSteps p env apDev).flatMap Step.events).countP q = 0 :=
  countP_eq_zero_of_mem fun e he => by
    rcases mem_ap_events he with ⟨a, h⟩ | ⟨a, h⟩ | ⟨id, a, hid, h⟩ |
      ⟨a, id, h⟩ <;> subst h
    · exact hns a
    · exact hcmd a
    · exact hsp id a hid
    · exact hen a id

theorem cnt0_clients {q : Ev → Bool} (env : Env) (ws : List WDev) (i : Nat)
    (htmp : ∀ a, q (Ev.tmpCreate a) = false)
    (hns : ∀ a, q (Ev.nsAdd a) = false) (hcmd : ∀ a, q (Ev.cmd a) = false)
    (hsp1 : ∀ j a, j < i + ws.length → q (Ev.spawn (suppId j) a) = false)
    (hsp2 : ∀ j a, j < i + ws.length → q (Ev.spawn (cliId j) a) = false) :
    ((clientsSteps env i ws).flatMap Step.events).countP q = 0 :=
  countP_eq_zero_of_mem fun e he => by
    rcases mem_clients_events env ws i e he with ⟨a, h⟩ | ⟨a, h⟩ | ⟨a, h⟩ |
      ⟨j, a, hj, h | h⟩ <;> subst h
    · exact htmp a
    · exact hns a
    · exact hcmd a
    · exact hsp1 j a hj
    · exact hsp2 j a hj

theorem cnt0_barrier {q : Ev → Bool} (env : Env) (l : List Nat)
    (hst : ∀ i, q (Ev.barrierStart i) = false)
    (hrd : ∀ i s, q (Ev.readLine i s) = false)
    (htm : ∀ i, q (Ev.terminate i) = false)
    (hen : ∀ i, q (Ev.barrierEnd i) = false) :
    ((l.map (barrierStep env)).flatMap Step.events).countP q = 0 :=
  countP_eq_zero_of_mem fun e he => by
    rcases mem_barrier_block env he with ⟨i, _, h | ⟨s', h⟩ | h | h⟩ <;> subst h
    · exact hst i
    · exact hrd i s'
    · exact htm _
    · exact hen i

theorem clientRel_wait_false (env : Env) (n : Nat) :
    ∀ (ws : List WDev) (i : Nat), i + ws.length ≤ n →
      ∀ l ∈ clientRelList env i ws, ∀ e ∈ l,
        waitIdGe (2 + 2 * n) e = false := by
  intro ws
  induction ws with
  | nil => intro i _ l hl; simp [clientRelList] at hl
  | cons w ws ih =>
      intro i hn l hl e he
      have hlen : (w :: ws).length = ws.length + 1 := rfl
      rw [hlen] at hn
      simp only [clientRelList, List.cons_append, List.nil_append,
        List.mem_cons] at hl
      rcases hl with hl | hl | hl | hl | hl
      · subst hl; simp at he; subst he; rfl
      · subst hl; simp at he; subst he; rfl
      · subst hl; simp at he
        rcases he with he | he <;> subst he
        · rfl
        · exact decide_eq_false (by show ¬ (2 + 2 * n ≤ 2 + 2 * i); omega)
      · subst hl; simp at he
        rcases he with he | he <;> subst he
        · rfl
        · exact decide_eq_false (by show ¬ (2 + 2 * n ≤ 3 + 2 * i); omega)
      · exact ih (i + 1) (by omega) l hl e he

theorem flatten_map_singleton {α : Type} (g : α → Ev) :
    ∀ l : List α, (l.map (fun i => [g i])).flatten = l.map g := by
  intro l
  induction l with
  | nil => rfl
  | cons a l ih => simp [ih]

theorem countP_map_true {α : Type} (g : α → Ev) (q : Ev → Bool)
    (h : ∀ x, q (g x) = true) :
    ∀ l : List α, (l.map g).countP q = l.length := by
  intro l
  induction l with
  | nil => rfl
  | cons a l ih => simp [List.countP_cons, h a, ih]

theorem releases_wait_count (p : Params) (env : Env) (apDev : WDev)
    (clients : List WDev) :
    (((testSteps p env apDev clients).filterMap
        Step.release).reverse.flatten).countP
      (waitIdGe (2 + 2 * clients.length)) = clients.length := by
  rw [testSteps_release_list, List.reverse_append, List.flatten_append,
    List.countP_append]
  have hRM : ((((List.range clients.length).map
      (fun i => [Ev.waitProc (iperfClientId clients.length i)])).reverse).flatten).countP
        (waitIdGe (2 + 2 * clients.length)) = clients.length := by
    rw [← List.map_reverse, flatten_map_singleton, countP_map_true _ _
      (fun x => decide_eq_true
        (by show 2 + 2 * clients.length ≤ 2 + 2 * clients.length + x; omega))]
    simp
  have hA : (([cgExitEvents cpuCgPath "cpu" env.cpuTasksAtExit env.pid,
      cgExitEvents cpusetCgPath "cpuset" env.cpusetTasksAtExit env.pid,
      [Ev.nsDelete "access_point"],
      [Ev.terminate 0, Ev.waitProc 0],
      [Ev.terminate 1, Ev.waitProc 1]] ++
        clientRelList env 0 clients).reverse.flatten).countP
      (waitIdGe (2 + 2 * clients.length)) = 0 :=
    countP_eq_zero_of_mem fun e he => by
      rw [List.mem_flatten] at he
      obtain ⟨l, hl, he⟩ := he
      rw [List.mem_reverse] at hl
      rcases List.mem_append.mp hl with hl | hl
      · simp only [List.mem_cons] at hl
        rcases hl with h | h | h | h | h | h
        · subst h
          rcases mem_cgExit he with ⟨v, h⟩ | h <;> subst h <;> rfl
        · subst h
          rcases mem_cgExit he with ⟨v, h⟩ | h <;> subst h <;> rfl
        · subst h; simp at he; subst he; rfl
        · subst h; simp at he
          rcases he with he | he <;> subst he
          · rfl
          · exact decide_eq_false
              (by show ¬ (2 + 2 * clients.length ≤ 0); omega)
        · subst h; simp at he
          rcases he with he | he <;> subst he
          · rfl
          · exact decide_eq_false
              (by show ¬ (2 + 2 * clients.length ≤ 1); omega)
        · simp at h
      · exact clientRel_wait_false env clients.length clients 0 (by simp)
          l hl e he
  rw [hRM, hA]
  omega

/-- C6: the trace of a complete run splits as `t1 ++ launches ++ t3` where
`launches` is exactly the spawning of the `C` load-generator (`iperf -c`)
clients: `t1` — which holds every connection wait, in full — contains no such
launch and no wait on any process, and `t3` — the scope's release phase —
contains no connection-wait event and exactly `C` waits on the launched
clients (their lifetime is bounded by scope exit). -/
theorem iperf_clients_after_barriers (p : Params) (env : Env) (apDev : WDev)
    (clients : List WDev) :
    ∃ t1 t3,
      (runScope (testSteps p env apDev clients) none).1 =
        t1 ++ ((List.range clients.length).flatMap (fun i =>
          [Ev.spawn (iperfClientId clients.length i) (iperfClientArgv p i),
           Ev.cgEnroll cpusetCgPath (iperfClientId clients.length i)])) ++ t3 ∧
      t1.filter isBarrierEv =
        (List.range clients.length).flatMap (barrierObs env) ∧
      t3.filter isBarrierEv = [] ∧
      t1.countP (spawnIdGe (2 + 2 * clients.length)) = 0 ∧
      t1.countP isWaitEv = 0 ∧
      t3.countP (waitIdGe (2 + 2 * clients.length)) = clients.length := by
  refine ⟨((cgroupSteps p env).flatMap Step.events ++
      ((apSteps p env apDev).flatMap Step.events ++
        ((clientsSteps env 0 clients).flatMap Step.events ++
          (barrierSteps env clients.length).flatMap Step.events))),
    ((testSteps p env apDev clients).filterMap Step.release).reverse.flatten,
    ?_, ?_, ?_, ?_, ?_, ?_⟩
  · rw [runScope_trace]
    simp only [stepsUpTo, testSteps, List.flatMap_append]
    rw [iperfClientSteps, iperf_events_eq]
    simp [List.append_assoc]
  · simp only [List.filter_append]
    rw [noBarrier_cg, noBarrier_ap, noBarrier_clients, barrierSteps,
      barrier_block_filter]
    simp
  · exact noBarrier_releases p env apDev clients
  · simp only [List.countP_append]
    rw [cnt0_cg p env (fun a => rfl) (fun a k v => rfl),
      cnt0_ap p env apDev (fun a => rfl) (fun a => rfl)
        (fun id a hid => decide_eq_false
          (by show ¬ (2 + 2 * clients.length ≤ id); omega))
        (fun a id => rfl),
      cnt0_clients env clients 0 (fun a => rfl) (fun a => rfl) (fun a => rfl)
        (fun j a hj => decide_eq_false
          (by show ¬ (2 + 2 * clients.length ≤ 2 + 2 * j); omega))
        (fun j a hj => decide_eq_false
          (by show ¬ (2 + 2 * clients.length ≤ 3 + 2 * j); omega)),
      barrierSteps,
      cnt0_barrier env (List.range clients.length) (fun i => rfl)
        (fun i s => rfl) (fun i => rfl) (fun i => rfl)]
  · simp only [List.countP_append]
    rw [cnt0_cg p env (fun a => rfl) (fun a k v => rfl),
      cnt0_ap p env apDev (fun a => rfl) (fun a => rfl) (fun id a hid => rfl)
        (fun a id => rfl),
      cnt0_clients env clients 0 (fun a => rfl) (fun a => rfl) (fun a => rfl)
        (fun j a hj => rfl) (fun j a hj => rfl),
      barrierSteps,
      cnt0_barrier env (List.range clients.length) (fun i => rfl)
        (fun i s => rfl) (fun i => rfl) (fun i => rfl)]
  · exact releases_wait_count p env apDev clients

end HwsimPerf
